import Mathlib

/-!
# Verification of the chem-clicker exam-bank pipeline

Shallow embedding of the question-bank pipeline:
* `exam_bank/parsing.py` — header regexes, `parse_pdf_to_entries`,
  `build_question_bank`, JSON save/load;
* `exam_bank/regexes.py` — the refactored header regexes (with `\+?` level suffix);
* `exam_bank/pdf_utils.py` — the three PDF assemblers and `select_questions`;
* `app.py` — `question_id` and `sample_questions_even_by_topic`;
* `scripts/find_duplicates.py` — `analyze_duplicates`.

A PDF page is modelled by its extracted text lines (`List String`); the
regexes of the source are embedded as explicit character-list matchers that
follow the Python `re` semantics (anchors, greediness, alternation priority,
backtracking where the pattern allows it) restricted to the ASCII inputs the
patterns are written for.
-/

namespace ChemClicker

/-- ASCII whitespace recognised by Python's `\s` and `str.strip`. -/
def isPySpace (c : Char) : Bool :=
  c = ' ' || c = '\t' || c = '\n' || c = '\r' || c = '\x0b' || c = '\x0c'

/-- ASCII lowering, the effect of `re.IGNORECASE` on the letters used here. -/
def lowerChar (c : Char) : Char :=
  if 'A' ≤ c && c ≤ 'Z' then Char.ofNat (c.toNat + 32) else c

/-- Python `\w` on ASCII: letters, digits, underscore. -/
def pyWordChar (c : Char) : Bool := c.isAlpha || c.isDigit || c = '_'

/-- `\b` at the position right before `s` (the previous char was a non-word). -/
def wordBoundaryAfter : List Char → Bool
  | [] => true
  | c :: _ => !pyWordChar c

/-- Numeric value of an ASCII digit, as `int()` computes it digit by digit. -/
def digitVal (c : Char) : Nat := c.toNat - 48

/-- Character-class test by code points (e.g. `[3-8]` is `charBetween 51 56`). -/
def charBetween (lo hi : Nat) (c : Char) : Bool := lo ≤ c.toNat && c.toNat ≤ hi

/-- `str.strip()`: drop leading and trailing whitespace. -/
def stripChars (s : List Char) : List Char :=
  ((s.dropWhile isPySpace).reverse.dropWhile isPySpace).reverse

/-- Consume a case-insensitive literal (given lowercase); return the rest. -/
def matchLitCI : List Char → List Char → Option (List Char)
  | [], s => some s
  | _ :: _, [] => none
  | p :: ps, c :: cs => if lowerChar c = p then matchLitCI ps cs else none

/-- Consume one expected character. -/
def expectChar (ch : Char) : List Char → Option (List Char)
  | [] => none
  | c :: cs => if c = ch then some cs else none

/-- Try alternatives in priority order, keeping the first success
(regex alternation with backtracking into the continuation). -/
def firstSome {α β : Type} (f : α → Option β) : List α → Option β
  | [] => none
  | x :: xs => match f x with
    | some b => some b
    | none => firstSome f xs

/-- The ways `(100|[1-9][0-9]?)` can consume input, in the engine's
priority order: literal `100`, then the greedy two-digit, then one digit. -/
def qnumCandidates (s : List Char) : List (Nat × List Char) :=
  (match s with
    | '1' :: '0' :: '0' :: rest => [(100, rest)]
    | _ => []) ++
  (match s with
    | d1 :: d2 :: rest =>
      if charBetween 49 57 d1 && charBetween 48 57 d2 then
        [(10 * digitVal d1 + digitVal d2, rest)]
      else []
    | _ => []) ++
  (match s with
    | d1 :: rest => if charBetween 49 57 d1 then [(digitVal d1, rest)] else []
    | _ => [])

/-- Result of `QUESTION_HEADER_RE` (parsing.py): groups 1-4. -/
structure QHeader where
  topic : Nat
  qnum : Nat
  level : Nat
  raw_lg : List Char
deriving DecidableEq, Repr

/-- `\s*\(L\.G\.\s*([^)]+)\)\s*$` — the group is everything up to the first
`)`; the preceding greedy `\s*` normally strips its leading spaces, except
that when the content is all whitespace the engine backtracks to leave one
character for the mandatory `+`. -/
def matchLGTail (s : List Char) : Option (List Char) := do
  let s1 ← expectChar '(' (s.dropWhile isPySpace)
  let s2 ← matchLitCI "l.g.".data s1
  let pre := s2.takeWhile (fun c => c ≠ ')')
  if pre.isEmpty then none
  else
    let grp := if (pre.dropWhile isPySpace).isEmpty
      then pre.drop (pre.length - 1)
      else pre.dropWhile isPySpace
    let s3 ← expectChar ')' (s2.dropWhile (fun c => c ≠ ')'))
    if (s3.dropWhile isPySpace).isEmpty then some grp else none

/-- `\s*:\s*Level\s*([1-4])\s*\(L\.G\.\s*([^)]+)\)\s*$` (parsing.py tail,
note: no optional `+` after the level digit). Returns (level, group 4). -/
def matchQTail (s : List Char) : Option (Nat × List Char) := do
  let s1 ← expectChar ':' (s.dropWhile isPySpace)
  let s2 ← matchLitCI "level".data (s1.dropWhile isPySpace)
  match s2.dropWhile isPySpace with
  | [] => none
  | c :: s3 =>
    if charBetween 49 52 c then  -- [1-4]
      (matchLGTail s3).map (fun grp => (digitVal c, grp))
    else none

/-- `QUESTION_HEADER_RE` of parsing.py:
`^T(1[3-8])Q(100|[1-9][0-9]?)\s*:\s*Level\s*([1-4])\s*\(L\.G\.\s*([^)]+)\)\s*$`
with `re.IGNORECASE`; `.search` with a `^` anchor matches only at the start. -/
def matchQuestionHeader : List Char → Option QHeader
  | ct :: c1 :: c2 :: cq :: rest =>
    if lowerChar ct = 't' ∧ c1 = '1' ∧ charBetween 51 56 c2 = true ∧ lowerChar cq = 'q' then
      firstSome (fun qc =>
        (matchQTail qc.2).map (fun lv =>
          ⟨10 * digitVal c1 + digitVal c2, qc.1, lv.1, lv.2⟩))
        (qnumCandidates rest)
    else none
  | _ => none

/-- `\s*:\s*Solution\b` — the common tail of the solution patterns. -/
def matchSTail (s : List Char) : Option Unit := do
  let s1 ← expectChar ':' (s.dropWhile isPySpace)
  let s2 ← matchLitCI "solution".data (s1.dropWhile isPySpace)
  if wordBoundaryAfter s2 then some () else none

/-- `SOLUTION_HEADER_RE` of parsing.py:
`^T(1[3-8])Q(100|[1-9][0-9]?)\s*:\s*Solution\b`, `re.IGNORECASE`. -/
def matchSolutionHeader : List Char → Option (Nat × Nat)
  | ct :: c1 :: c2 :: cq :: rest =>
    if lowerChar ct = 't' ∧ c1 = '1' ∧ charBetween 51 56 c2 = true ∧ lowerChar cq = 'q' then
      firstSome (fun qc =>
        (matchSTail qc.2).map (fun _ => (10 * digitVal c1 + digitVal c2, qc.1)))
        (qnumCandidates rest)
    else none
  | _ => none

/-- `\b8\s*pt\s*challenge\b` matching at the current position. -/
def challengeAt (s : List Char) : Bool :=
  (do
    let s1 ← expectChar '8' s
    let s2 ← matchLitCI "pt".data (s1.dropWhile isPySpace)
    let s3 ← matchLitCI "challenge".data (s2.dropWhile isPySpace)
    if wordBoundaryAfter s3 then some () else none).isSome

/-- Scan of `CHALLENGE_HEADER_RE.search`: try every position, with the
`\b` before `8` checked against the previous character. -/
def containsChallengeAux : Option Char → List Char → Bool
  | _, [] => false
  | prev, c :: cs =>
    ((match prev with | none => true | some p => !pyWordChar p)
        && challengeAt (c :: cs))
      || containsChallengeAux (some c) cs

/-- `CHALLENGE_HEADER_RE.search(header)` (unanchored). -/
def containsChallenge (s : List Char) : Bool := containsChallengeAux none s

/-- `CHALLENGE_SOLUTION_HEADER_RE` of parsing.py: `^Q0\s*:\s*Solution\b`. -/
def matchChallengeSolution (s : List Char) : Bool :=
  (do
    let s1 ← (match s with
      | cq :: c0 :: rest =>
        if lowerChar cq = 'q' ∧ c0 = '0' then some rest else none
      | _ => none)
    matchSTail s1).isSome

/-- The four entry kinds produced by `parse_pdf_to_entries`. -/
inductive EntryKind where
  | question
  | solution
  | challenge_q
  | challenge_sol
deriving DecidableEq, Repr

/-- One entry dict appended by `parse_pdf_to_entries`. Question entries
carry `level` and `learning_goals`; the other kinds lack those dict keys,
modelled as `none`. -/
structure Entry where
  kind : EntryKind
  topic : Nat
  qnum : Nat
  level : Option Nat
  learning_goals : Option (List String)
  text : String
  page : Nat
deriving DecidableEq, Repr

/-- `re.split(r"[,&/]", raw_lg)`: split at every separator occurrence. -/
def splitLG : List Char → List (List Char)
  | [] => [[]]
  | c :: cs =>
    if c = ',' || c = '&' || c = '/' then [] :: splitLG cs
    else match splitLG cs with
      | g :: gs => (c :: g) :: gs
      | [] => [[c]]

/-- `[p.strip() for p in re.split(r"[,&/]", raw_lg) if p.strip()]`. -/
def lgListOf (raw : List Char) : List String :=
  (((splitLG raw).map stripChars).filter (fun g => !g.isEmpty)).map String.mk

/-- `"\n".join(lines)` followed by `.strip()` — the body of a page. -/
def bodyOf (restLines : List String) : String :=
  String.mk (stripChars (String.intercalate "\n" restLines).data)

/-- Classification of one page (the loop body of `parse_pdf_to_entries`):
given the running `current_topic`, the 1-based page index and the page's
text lines, return the entries appended (`[]` or a singleton) and the new
`current_topic`. An empty page (`if not lines: continue`) adds nothing. -/
def parsePage (ct : Option Nat) (idx : Nat) (lines : List String) :
    List Entry × Option Nat :=
  match lines with
  | [] => ([], ct)
  | first :: restLines =>
    let header := stripChars first.data
    let body := bodyOf restLines
    match matchQuestionHeader header with
    | some qh =>
      ([{ kind := .question, topic := qh.topic, qnum := qh.qnum,
          level := some qh.level,
          learning_goals := some (lgListOf (stripChars qh.raw_lg)),
          text := body, page := idx }], some qh.topic)
    | none =>
      match matchSolutionHeader header with
      | some tn =>
        ([{ kind := .solution, topic := tn.1, qnum := tn.2, level := none,
            learning_goals := none, text := body, page := idx }], some tn.1)
      | none =>
        match ct with
        | some t =>
          if containsChallenge header then
            ([{ kind := .challenge_q, topic := t, qnum := 0, level := none,
                learning_goals := none, text := body, page := idx }], ct)
          else if matchChallengeSolution header then
            ([{ kind := .challenge_sol, topic := t, qnum := 0, level := none,
                learning_goals := none, text := body, page := idx }], ct)
          else ([], ct)
        | none => ([], ct)

/-- The page loop of `parse_pdf_to_entries`, threading `current_topic`
and the 1-based page counter (`enumerate(pdf.pages, start=1)`). -/
def parsePages (ct : Option Nat) (idx : Nat) : List (List String) → List Entry
  | [] => []
  | pg :: rest =>
    (parsePage ct idx pg).1 ++ parsePages (parsePage ct idx pg).2 (idx + 1) rest

/-- `parse_pdf_to_entries` over a document given as pages of text lines. -/
def parse_pdf_to_entries (pages : List (List String)) : List Entry :=
  parsePages none 1 pages

/-! ## The refactored regexes of `exam_bank/regexes.py`

`QUESTION_HEADER_RE` there is built from `TOPIC_STR = T([1-9]|1[0-8])`,
`QNUM_STR = Q([1-9][0-9]?)`, `LEVEL_STR = Level\s*([1-4])\+?` and
`LG_STR = L\.G\.\s*(\d+)`; the repo's `tests/test_regex.py` checks it against
the header `T13Q7: Level 3+ (L.G. 11)`. -/

/-- Result of the regexes.py `QUESTION_HEADER_RE` (single LG code). -/
structure QHeaderR where
  topic : Nat
  qnum : Nat
  level : Nat
  lg : List Char
deriving DecidableEq, Repr

/-- `([1-9]|1[0-8])`: alternatives in priority order. -/
def topicCandidatesR (s : List Char) : List (Nat × List Char) :=
  (match s with
    | d1 :: rest => if charBetween 49 57 d1 then [(digitVal d1, rest)] else []
    | _ => []) ++
  (match s with
    | '1' :: d2 :: rest =>
      if charBetween 48 56 d2 then [(10 + digitVal d2, rest)] else []
    | _ => [])

/-- `([1-9][0-9]?)`: greedy two digits, then one. -/
def qnumCandidatesR (s : List Char) : List (Nat × List Char) :=
  (match s with
    | d1 :: d2 :: rest =>
      if charBetween 49 57 d1 && charBetween 48 57 d2 then
        [(10 * digitVal d1 + digitVal d2, rest)]
      else []
    | _ => []) ++
  (match s with
    | d1 :: rest => if charBetween 49 57 d1 then [(digitVal d1, rest)] else []
    | _ => [])

/-- regexes.py tail `\s*:\s*Level\s*([1-4])\+?\s*\(L\.G\.\s*(\d+)\)\s*$`. -/
def matchQTailR (s : List Char) : Option (Nat × List Char) := do
  let s1 ← expectChar ':' (s.dropWhile isPySpace)
  let s2 ← matchLitCI "level".data (s1.dropWhile isPySpace)
  match s2.dropWhile isPySpace with
  | [] => none
  | c :: s3 =>
    if charBetween 49 52 c then
      let s4 := match s3 with
        | '+' :: r => r
        | r => r
      let s5 ← expectChar '(' (s4.dropWhile isPySpace)
      let s6 ← matchLitCI "l.g.".data s5
      let s7 := s6.dropWhile isPySpace
      let digits := s7.takeWhile Char.isDigit
      if digits.isEmpty then none
      else do
        let s8 ← expectChar ')' (s7.dropWhile Char.isDigit)
        if (s8.dropWhile isPySpace).isEmpty then some (digitVal c, digits)
        else none
    else none

/-- `QUESTION_HEADER_RE` of regexes.py (anchored, `re.IGNORECASE`). -/
def matchQuestionHeaderR : List Char → Option QHeaderR
  | ct :: rest =>
    if lowerChar ct = 't' then
      firstSome (fun tc =>
        match tc.2 with
        | cq :: rest2 =>
          if lowerChar cq = 'q' then
            firstSome (fun qc =>
              (matchQTailR qc.2).map (fun lv => ⟨tc.1, qc.1, lv.1, lv.2⟩))
              (qnumCandidatesR rest2)
          else none
        | [] => none)
        (topicCandidatesR rest)
    else none
  | [] => none

/-- Behaviour of the solution/challenge matchers on the headers the
source's slides use (the repo's regex tests in spirit). -/
theorem header_matchers_spot_checks :
    matchSolutionHeader "T14Q10: Solution".data = some (14, 10)
    ∧ containsChallenge "8 pt challenge".data = true
    ∧ matchChallengeSolution "Q0: Solution".data = true := by decide

/-! ## Topic-range facts about the header matchers (for C10) -/

theorem firstSome_eq_some {α β : Type} {f : α → Option β} :
    ∀ {l : List α} {b : β}, firstSome f l = some b → ∃ x, x ∈ l ∧ f x = some b
  | [], _, h => Option.noConfusion h
  | x :: xs, b, h => by
    cases hf : f x with
    | some b' =>
      refine ⟨x, List.mem_cons_self x xs, ?_⟩
      unfold firstSome at h
      rw [hf] at h
      exact hf.trans h
    | none =>
      unfold firstSome at h
      rw [hf] at h
      obtain ⟨y, hy, hfy⟩ := firstSome_eq_some h
      exact ⟨y, List.mem_cons_of_mem _ hy, hfy⟩

theorem matchQuestionHeader_topic :
    ∀ {s : List Char} {qh : QHeader}, matchQuestionHeader s = some qh →
      13 ≤ qh.topic ∧ qh.topic ≤ 18
  | [], _, h => Option.noConfusion h
  | [_], _, h => Option.noConfusion h
  | [_, _], _, h => Option.noConfusion h
  | [_, _, _], _, h => Option.noConfusion h
  | ct :: c1 :: c2 :: cq :: rest, qh, h => by
    simp only [matchQuestionHeader] at h
    by_cases hcond : lowerChar ct = 't' ∧ c1 = '1'
        ∧ charBetween 51 56 c2 = true ∧ lowerChar cq = 'q'
    · rw [if_pos hcond] at h
      obtain ⟨-, h1, hc2, -⟩ := hcond
      obtain ⟨qc, -, hqc⟩ := firstSome_eq_some h
      obtain ⟨lv, -, hlv⟩ := Option.map_eq_some'.mp hqc
      have hd1 : digitVal c1 = 1 := by rw [h1]; rfl
      simp only [charBetween, Bool.and_eq_true, decide_eq_true_eq] at hc2
      rw [← hlv]
      simp only [hd1]
      unfold digitVal
      constructor <;> omega
    · rw [if_neg hcond] at h
      exact Option.noConfusion h

theorem matchSolutionHeader_topic :
    ∀ {s : List Char} {tn : Nat × Nat}, matchSolutionHeader s = some tn →
      13 ≤ tn.1 ∧ tn.1 ≤ 18
  | [], _, h => Option.noConfusion h
  | [_], _, h => Option.noConfusion h
  | [_, _], _, h => Option.noConfusion h
  | [_, _, _], _, h => Option.noConfusion h
  | ct :: c1 :: c2 :: cq :: rest, tn, h => by
    simp only [matchSolutionHeader] at h
    by_cases hcond : lowerChar ct = 't' ∧ c1 = '1'
        ∧ charBetween 51 56 c2 = true ∧ lowerChar cq = 'q'
    · rw [if_pos hcond] at h
      obtain ⟨-, h1, hc2, -⟩ := hcond
      obtain ⟨qc, -, hqc⟩ := firstSome_eq_some h
      obtain ⟨u, -, hu⟩ := Option.map_eq_some'.mp hqc
      have hd1 : digitVal c1 = 1 := by rw [h1]; rfl
      simp only [charBetween, Bool.and_eq_true, decide_eq_true_eq] at hc2
      rw [← hu]
      simp only [hd1]
      unfold digitVal
      constructor <;> omega
    · rw [if_neg hcond] at h
      exact Option.noConfusion h

theorem parsePage_topic {ct : Option Nat}
    (hct : ∀ t, ct = some t → 13 ≤ t ∧ t ≤ 18) (idx : Nat) :
    ∀ lines : List String,
      (∀ e ∈ (parsePage ct idx lines).1, 13 ≤ e.topic ∧ e.topic ≤ 18)
      ∧ (∀ t, (parsePage ct idx lines).2 = some t → 13 ≤ t ∧ t ≤ 18)
  | [] => ⟨by simp [parsePage], by simpa [parsePage] using hct⟩
  | first :: restLines => by
    cases hq : matchQuestionHeader (stripChars first.data) with
    | some qh =>
      have hqt := matchQuestionHeader_topic hq
      constructor
      · intro e he
        simp only [parsePage, hq, List.mem_singleton] at he
        subst he
        exact hqt
      · intro t ht
        simp only [parsePage, hq, Option.some_inj] at ht
        rw [← ht]
        exact hqt
    | none =>
      cases hs : matchSolutionHeader (stripChars first.data) with
      | some tn =>
        have hst := matchSolutionHeader_topic hs
        constructor
        · intro e he
          simp only [parsePage, hq, hs, List.mem_singleton] at he
          subst he
          exact hst
        · intro t ht
          simp only [parsePage, hq, hs, Option.some_inj] at ht
          rw [← ht]
          exact hst
      | none =>
        cases ct with
        | none =>
          refine ⟨?_, ?_⟩
          · intro e he
            simp [parsePage, hq, hs] at he
          · intro t ht
            simp [parsePage, hq, hs] at ht
        | some t0 =>
          have ht0 := hct t0 rfl
          by_cases hch : containsChallenge (stripChars first.data) = true
          · refine ⟨?_, ?_⟩
            · intro e he
              simp only [parsePage, hq, hs, if_pos hch, List.mem_singleton] at he
              subst he
              exact ht0
            · intro t ht
              simp only [parsePage, hq, hs, if_pos hch, Option.some_inj] at ht
              rw [← ht]
              exact ht0
          · by_cases hchs : matchChallengeSolution (stripChars first.data) = true
            · refine ⟨?_, ?_⟩
              · intro e he
                simp only [parsePage, hq, hs, if_neg hch, if_pos hchs,
                  List.mem_singleton] at he
                subst he
                exact ht0
              · intro t ht
                simp only [parsePage, hq, hs, if_neg hch, if_pos hchs,
                  Option.some_inj] at ht
                rw [← ht]
                exact ht0
            · refine ⟨?_, ?_⟩
              · intro e he
                simp [parsePage, hq, hs, hch, hchs] at he
              · intro t ht
                simp only [parsePage, hq, hs, if_neg hch, if_neg hchs,
                  Option.some_inj] at ht
                rw [← ht]
                exact ht0

theorem parsePages_topic :
    ∀ (pages : List (List String)) (ct : Option Nat) (idx : Nat),
      (∀ t, ct = some t → 13 ≤ t ∧ t ≤ 18) →
      ∀ e ∈ parsePages ct idx pages, 13 ≤ e.topic ∧ e.topic ≤ 18
  | [], _, _, _, e, he => absurd he (List.not_mem_nil e)
  | pg :: rest, ct, idx, hct, e, he => by
    obtain ⟨hents, hct2⟩ := parsePage_topic hct idx pg
    simp only [parsePages] at he
    rcases List.mem_append.mp he with h1 | h2
    · exact hents e h1
    · exact parsePages_topic rest _ (idx + 1) hct2 e h2

/-- C10: every entry emitted by `parse_pdf_to_entries` has a topic between
13 and 18 inclusive (question/solution entries directly from the `1[3-8]`
topic group of their header, challenge entries via the inherited current
topic); in particular a page headed by a topic from 1 to 12 contributes
no entry. -/
theorem c10_topics_in_range :
    (∀ (pages : List (List String)) (e : Entry),
        e ∈ parse_pdf_to_entries pages → 13 ≤ e.topic ∧ e.topic ≤ 18)
    ∧ parse_pdf_to_entries [["T5Q3: Level 2 (L.G. 1)", "text"]] = [] := by
  constructor
  · intro pages e he
    exact parsePages_topic pages none 1 (fun t ht => Option.noConfusion ht) e he
  · decide

/-- Concrete page and entry witnessing `c10_topics_in_range`. -/
def c10page : List (List String) := [["T13Q7: Level 3 (L.G. 11)", "b"]]

/-- The entry `c10page` produces. -/
def c10entry : Entry :=
  { kind := .question, topic := 13, qnum := 7, level := some 3,
    learning_goals := some ["11"], text := "b", page := 1 }

/-- Witness for `c10_topics_in_range` at a concrete page. -/
theorem c10_topics_in_range_witness :
    (c10entry ∈ parse_pdf_to_entries c10page)
    ∧ (13 ≤ c10entry.topic ∧ c10entry.topic ≤ 18) :=
  ⟨by decide, c10_topics_in_range.1 c10page c10entry (by decide)⟩

/-- C1 (evaluation at the failing input): the classifier of parsing.py
emits no entry for the header `T13Q7: Level 3+ (L.G. 11)` — its
`QUESTION_HEADER_RE` has no optional `+` after the level digit — while
the `QUESTION_HEADER_RE` of regexes.py (the one the repo's
`tests/test_regex.py` asserts matches exactly this header) extracts
topic 13, qnum 7, level 3, goal "11"; without the `+` the same header
classifies as the claim describes. -/
theorem c1_level_plus_header :
    parse_pdf_to_entries [["T13Q7: Level 3+ (L.G. 11)", "stem"]] = []
    ∧ matchQuestionHeaderR "T13Q7: Level 3+ (L.G. 11)".data
        = some ⟨13, 7, 3, "11".data⟩
    ∧ parse_pdf_to_entries [["T13Q7: Level 3 (L.G. 11)", "stem"]]
        = [{ kind := .question, topic := 13, qnum := 7, level := some 3,
             learning_goals := some ["11"], text := "stem", page := 1 }] :=
  ⟨by decide, by decide, by decide⟩

/-! ## The question bank (`models.py`, `build_question_bank`) -/

/-- The `Question` dataclass of `exam_bank/models.py`. -/
structure Question where
  topic : Nat
  qnum : Nat
  is_challenge : Bool
  question_text : String
  solution_text : Option String := none
  question_page : Option Nat := none
  solution_page : Option Nat := none
  level : Option Nat := none
  learning_goals : Option (List String) := none
deriving DecidableEq, Repr

/-- Whether an entry kind counts as a challenge entry
(`kind in {"challenge_q", "challenge_sol"}`). -/
def entryIsChallenge : EntryKind → Bool
  | .challenge_q => true
  | .challenge_sol => true
  | _ => false

/-- The fresh record inserted when a key is first seen. -/
def freshQuestion (e : Entry) : Question :=
  { topic := e.topic, qnum := e.qnum,
    is_challenge := entryIsChallenge e.kind, question_text := "" }

/-- The per-entry mutation of the stored record in `build_question_bank`. -/
def applyEntry (e : Entry) (q : Question) : Question :=
  let q1 := if entryIsChallenge e.kind then { q with is_challenge := true } else q
  match e.kind with
  | .question =>
    { q1 with question_text := e.text, question_page := some e.page,
              level := e.level, learning_goals := e.learning_goals }
  | .solution =>
    { q1 with solution_text := some e.text, solution_page := some e.page }
  | .challenge_q =>
    { q1 with question_text := e.text, question_page := some e.page }
  | .challenge_sol =>
    { q1 with solution_text := some e.text, solution_page := some e.page }

/-- First-occurrence lookup in the bank, the dict access `bank[key]`. -/
def lookupQ (key : Nat × Nat) : List ((Nat × Nat) × Question) → Option Question
  | [] => none
  | kq :: rest => if kq.1 = key then some kq.2 else lookupQ key rest

/-- In-place update of the record stored at `key` (dict mutation). -/
def updateAt (key : Nat × Nat) (f : Question → Question) :
    List ((Nat × Nat) × Question) → List ((Nat × Nat) × Question)
  | [] => []
  | kq :: rest =>
    if kq.1 = key then (kq.1, f kq.2) :: rest else kq :: updateAt key f rest

/-- One iteration of the entry loop: insert a fresh record if the key
`(e["topic"], e["qnum"])` is absent, then mutate the stored record. -/
def bqbStep (bank : List ((Nat × Nat) × Question)) (e : Entry) :
    List ((Nat × Nat) × Question) :=
  if (lookupQ (e.topic, e.qnum) bank).isSome then
    updateAt (e.topic, e.qnum) (applyEntry e) bank
  else
    updateAt (e.topic, e.qnum) (applyEntry e)
      (bank ++ [((e.topic, e.qnum), freshQuestion e)])

/-- The insertion-ordered dict built by `build_question_bank`. -/
def bqbFold (entries : List Entry) : List ((Nat × Nat) × Question) :=
  entries.foldl bqbStep []

/-- `build_question_bank`: `list(bank.values())`. -/
def build_question_bank (entries : List Entry) : List Question :=
  (bqbFold entries).map (·.2)

/-! ### Invariants of the bank fold -/

theorem applyEntry_topic (e : Entry) (q : Question) :
    (applyEntry e q).topic = q.topic := by
  obtain ⟨k, t, n, lv, lg, tx, pg⟩ := e
  cases k <;> simp [applyEntry, entryIsChallenge]

theorem applyEntry_qnum (e : Entry) (q : Question) :
    (applyEntry e q).qnum = q.qnum := by
  obtain ⟨k, t, n, lv, lg, tx, pg⟩ := e
  cases k <;> simp [applyEntry, entryIsChallenge]

theorem applyEntry_challenge_mono (e : Entry) (q : Question)
    (h : q.is_challenge = true) : (applyEntry e q).is_challenge = true := by
  obtain ⟨k, t, n, lv, lg, tx, pg⟩ := e
  cases k <;> simp [applyEntry, entryIsChallenge, h]

theorem applyEntry_challenge_set (e : Entry) (q : Question)
    (h : entryIsChallenge e.kind = true) : (applyEntry e q).is_challenge = true := by
  obtain ⟨k, t, n, lv, lg, tx, pg⟩ := e
  cases k <;> simp_all [applyEntry, entryIsChallenge]

theorem updateAt_keys (key : Nat × Nat) (f : Question → Question) :
    ∀ l : List ((Nat × Nat) × Question),
      (updateAt key f l).map (·.1) = l.map (·.1)
  | [] => rfl
  | kq :: rest => by
    by_cases h : kq.1 = key <;>
      simp [updateAt, h, updateAt_keys key f rest]

theorem mem_updateAt {key : Nat × Nat} {f : Question → Question} :
    ∀ {l : List ((Nat × Nat) × Question)} {kq},
      kq ∈ updateAt key f l → kq ∈ l ∨ ∃ q, (key, q) ∈ l ∧ kq = (key, f q)
  | [], kq => by simp [updateAt]
  | hd :: rest, kq => by
    by_cases h : hd.1 = key
    · simp only [updateAt, if_pos h, List.mem_cons]
      rintro (rfl | hmem)
      · refine Or.inr ⟨hd.2, Or.inl ?_, ?_⟩
        · rw [← h]
        · rw [h]
      · exact Or.inl (Or.inr hmem)
    · simp only [updateAt, if_neg h, List.mem_cons]
      rintro (rfl | hmem)
      · exact Or.inl (Or.inl rfl)
      · rcases mem_updateAt hmem with h1 | ⟨q, hq, rfl⟩
        · exact Or.inl (Or.inr h1)
        · exact Or.inr ⟨q, Or.inr hq, rfl⟩

theorem lookupQ_isSome_iff {key : Nat × Nat} :
    ∀ {l : List ((Nat × Nat) × Question)},
      (lookupQ key l).isSome = true ↔ key ∈ l.map (·.1)
  | [] => by simp [lookupQ]
  | kq :: rest => by
    by_cases h : kq.1 = key
    · simp [lookupQ, h]
    · simp only [lookupQ, if_neg h, List.map_cons, List.mem_cons]
      rw [lookupQ_isSome_iff (l := rest)]
      constructor
      · exact fun hm => Or.inr hm
      · rintro (rfl | hm)
        · exact absurd rfl h
        · exact hm

theorem lookupQ_append_some {key : Nat × Nat} {q : Question} :
    ∀ {l : List ((Nat × Nat) × Question)} (l' : List ((Nat × Nat) × Question)),
      lookupQ key l = some q → lookupQ key (l ++ l') = some q
  | [], _, h => by simp [lookupQ] at h
  | kq :: rest, l', h => by
    by_cases hk : kq.1 = key
    · simp only [lookupQ, if_pos hk] at h ⊢
      exact h
    · simp only [lookupQ, if_neg hk] at h ⊢
      exact lookupQ_append_some l' h

theorem lookupQ_append_none {key : Nat × Nat} :
    ∀ {l : List ((Nat × Nat) × Question)} (l' : List ((Nat × Nat) × Question)),
      lookupQ key l = none → lookupQ key (l ++ l') = lookupQ key l'
  | [], _, _ => rfl
  | kq :: rest, l', h => by
    by_cases hk : kq.1 = key
    · simp only [lookupQ, if_pos hk] at h
      exact Option.noConfusion h
    · simp only [lookupQ, if_neg hk] at h ⊢
      exact lookupQ_append_none l' h

theorem lookupQ_updateAt_self (key : Nat × Nat) (f : Question → Question) :
    ∀ l, lookupQ key (updateAt key f l) = (lookupQ key l).map f
  | [] => rfl
  | kq :: rest => by
    by_cases h : kq.1 = key
    · simp only [updateAt, if_pos h, lookupQ]
      rfl
    · simp only [updateAt, if_neg h, lookupQ]
      exact lookupQ_updateAt_self key f rest

theorem lookupQ_updateAt_ne {k key : Nat × Nat} (hne : k ≠ key)
    (f : Question → Question) :
    ∀ l, lookupQ k (updateAt key f l) = lookupQ k l
  | [] => rfl
  | kq :: rest => by
    by_cases h : kq.1 = key
    · have hk : ¬ kq.1 = k := fun hc => hne (by rw [← hc, h])
      simp only [updateAt, if_pos h, lookupQ]
      rw [if_neg hk, if_neg hk]
    · simp only [updateAt, if_neg h, lookupQ]
      by_cases h2 : kq.1 = k
      · rw [if_pos h2, if_pos h2]
      · rw [if_neg h2, if_neg h2, lookupQ_updateAt_ne hne f rest]

theorem lookupQ_of_mem_nodup {kq : (Nat × Nat) × Question} :
    ∀ {l : List ((Nat × Nat) × Question)},
      (l.map (·.1)).Nodup → kq ∈ l → lookupQ kq.1 l = some kq.2
  | [], _, h => absurd h (List.not_mem_nil _)
  | hd :: rest, hnd, hmem => by
    rw [List.map_cons, List.nodup_cons] at hnd
    rcases List.mem_cons.mp hmem with rfl | hmem'
    · simp [lookupQ]
    · have hk : hd.1 ≠ kq.1 := by
        intro hc
        refine hnd.1 ?_
        rw [hc]
        exact List.mem_map.mpr ⟨kq, hmem', rfl⟩
      simp only [lookupQ, if_neg hk]
      exact lookupQ_of_mem_nodup hnd.2 hmem'

/-- Well-formedness of the bank dict: keys are distinct, and each record's
`topic`/`qnum` agree with its key. -/
def BankWF (bank : List ((Nat × Nat) × Question)) : Prop :=
  (bank.map (·.1)).Nodup ∧ ∀ kq ∈ bank, kq.2.topic = kq.1.1 ∧ kq.2.qnum = kq.1.2

theorem bqbStep_wf {bank : List ((Nat × Nat) × Question)} (h : BankWF bank)
    (e : Entry) : BankWF (bqbStep bank e) := by
  obtain ⟨hnd, hfield⟩ := h
  unfold bqbStep
  by_cases hl : (lookupQ (e.topic, e.qnum) bank).isSome = true
  · rw [if_pos hl]
    refine ⟨by rw [updateAt_keys]; exact hnd, ?_⟩
    intro kq hkq
    rcases mem_updateAt hkq with hmem | ⟨q, hq, rfl⟩
    · exact hfield _ hmem
    · have hf := hfield _ hq
      exact ⟨by rw [applyEntry_topic]; exact hf.1,
             by rw [applyEntry_qnum]; exact hf.2⟩
  · rw [if_neg hl]
    have hout : (e.topic, e.qnum) ∉ bank.map (·.1) := fun hc =>
      hl (lookupQ_isSome_iff.mpr hc)
    refine ⟨?_, ?_⟩
    · rw [updateAt_keys, List.map_append]
      refine List.Nodup.append hnd (List.nodup_singleton _) ?_
      intro a ha hb
      rw [List.map_singleton, List.mem_singleton] at hb
      subst hb
      exact hout ha
    · intro kq hkq
      rcases mem_updateAt hkq with hmem | ⟨q, hq, rfl⟩
      · rcases List.mem_append.mp hmem with hmem' | hmem'
        · exact hfield _ hmem'
        · rw [List.mem_singleton] at hmem'
          subst hmem'
          exact ⟨rfl, rfl⟩
      · rcases List.mem_append.mp hq with hq' | hq'
        · have hf := hfield _ hq'
          exact ⟨by rw [applyEntry_topic]; exact hf.1,
                 by rw [applyEntry_qnum]; exact hf.2⟩
        · rw [List.mem_singleton, Prod.mk.injEq] at hq'
          obtain ⟨-, rfl⟩ := hq'
          exact ⟨by simp [applyEntry_topic, freshQuestion],
                 by simp [applyEntry_qnum, freshQuestion]⟩

theorem bqbStep_keys_mono {bank : List ((Nat × Nat) × Question)} {k : Nat × Nat}
    (e : Entry) (h : k ∈ bank.map (·.1)) : k ∈ (bqbStep bank e).map (·.1) := by
  unfold bqbStep
  by_cases hl : (lookupQ (e.topic, e.qnum) bank).isSome = true
  · rw [if_pos hl, updateAt_keys]
    exact h
  · rw [if_neg hl, updateAt_keys, List.map_append]
    exact List.mem_append.mpr (Or.inl h)

theorem bqbStep_keys_self (bank : List ((Nat × Nat) × Question)) (e : Entry) :
    (e.topic, e.qnum) ∈ (bqbStep bank e).map (·.1) := by
  unfold bqbStep
  by_cases hl : (lookupQ (e.topic, e.qnum) bank).isSome = true
  · rw [if_pos hl, updateAt_keys]
    exact lookupQ_isSome_iff.mp hl
  · rw [if_neg hl, updateAt_keys, List.map_append]
    exact List.mem_append.mpr (Or.inr (by simp))

theorem bqbFoldFrom_wf :
    ∀ (es : List Entry) (b : List ((Nat × Nat) × Question)),
      BankWF b → BankWF (es.foldl bqbStep b)
  | [], _, hb => hb
  | e :: es, b, hb => bqbFoldFrom_wf es _ (bqbStep_wf hb e)

theorem bqbFold_wf (es : List Entry) : BankWF (bqbFold es) :=
  bqbFoldFrom_wf es [] ⟨List.nodup_nil, by simp⟩

theorem bqbFoldFrom_keys_mono :
    ∀ (es : List Entry) (b : List ((Nat × Nat) × Question)) (k : Nat × Nat),
      k ∈ b.map (·.1) → k ∈ (es.foldl bqbStep b).map (·.1)
  | [], _, _, h => h
  | e :: es, b, k, h => bqbFoldFrom_keys_mono es _ k (bqbStep_keys_mono e h)

theorem bqbFoldFrom_keys_mem :
    ∀ (es : List Entry) (b : List ((Nat × Nat) × Question)) (e : Entry),
      e ∈ es → (e.topic, e.qnum) ∈ (es.foldl bqbStep b).map (·.1)
  | [], _, _, h => absurd h (List.not_mem_nil _)
  | e' :: es, b, e, h => by
    rcases List.mem_cons.mp h with rfl | hmem
    · exact bqbFoldFrom_keys_mono es _ _ (bqbStep_keys_self b e)
    · exact bqbFoldFrom_keys_mem es _ e hmem

/-- "The record at key `k` exists and is flagged challenge". -/
def ChallengeAt (bank : List ((Nat × Nat) × Question)) (k : Nat × Nat) : Prop :=
  ∃ q, lookupQ k bank = some q ∧ q.is_challenge = true

theorem ChallengeAt_step {bank : List ((Nat × Nat) × Question)} {k : Nat × Nat}
    (h : ChallengeAt bank k) (e : Entry) : ChallengeAt (bqbStep bank e) k := by
  obtain ⟨q, hq, hch⟩ := h
  unfold bqbStep
  by_cases hk : k = (e.topic, e.qnum)
  · subst hk
    have hl : (lookupQ (e.topic, e.qnum) bank).isSome = true := by rw [hq]; rfl
    rw [if_pos hl]
    unfold ChallengeAt
    rw [lookupQ_updateAt_self, hq]
    exact ⟨applyEntry e q, rfl, applyEntry_challenge_mono e q hch⟩
  · by_cases hl : (lookupQ (e.topic, e.qnum) bank).isSome = true
    · rw [if_pos hl]
      unfold ChallengeAt
      rw [lookupQ_updateAt_ne hk]
      exact ⟨q, hq, hch⟩
    · rw [if_neg hl]
      unfold ChallengeAt
      rw [lookupQ_updateAt_ne hk, lookupQ_append_some _ hq]
      exact ⟨q, rfl, hch⟩

theorem ChallengeAt_step_self (bank : List ((Nat × Nat) × Question)) {e : Entry}
    (hch : entryIsChallenge e.kind = true) :
    ChallengeAt (bqbStep bank e) (e.topic, e.qnum) := by
  unfold bqbStep
  by_cases hl : (lookupQ (e.topic, e.qnum) bank).isSome = true
  · rw [if_pos hl]
    unfold ChallengeAt
    rw [lookupQ_updateAt_self]
    obtain ⟨q, hq⟩ := Option.isSome_iff_exists.mp hl
    rw [hq]
    exact ⟨applyEntry e q, rfl, applyEntry_challenge_set e q hch⟩
  · rw [if_neg hl]
    have hnone : lookupQ (e.topic, e.qnum) bank = none :=
      Option.not_isSome_iff_eq_none.mp (by simpa using hl)
    unfold ChallengeAt
    rw [lookupQ_updateAt_self, lookupQ_append_none _ hnone]
    refine ⟨applyEntry e (freshQuestion e), ?_, applyEntry_challenge_set e _ hch⟩
    simp [lookupQ]

theorem ChallengeAt_fold :
    ∀ (es : List Entry) (b : List ((Nat × Nat) × Question)) {k : Nat × Nat},
      ChallengeAt b k → ChallengeAt (es.foldl bqbStep b) k
  | [], _, _, h => h
  | e :: es, b, _, h => ChallengeAt_fold es _ (ChallengeAt_step h e)

theorem bqbFoldFrom_challenge :
    ∀ (es : List Entry) (b : List ((Nat × Nat) × Question)) (e : Entry),
      e ∈ es → entryIsChallenge e.kind = true →
      ChallengeAt (es.foldl bqbStep b) (e.topic, e.qnum)
  | [], _, _, h, _ => absurd h (List.not_mem_nil _)
  | e' :: es, b, e, h, hch => by
    rcases List.mem_cons.mp h with rfl | hmem
    · exact ChallengeAt_fold es _ (ChallengeAt_step_self b hch)
    · exact bqbFoldFrom_challenge es _ e hmem hch

/-- C2 (amended): `build_question_bank` reconciles entries under the key
`(topic, qnum)` (not the triple with `is_challenge`): the pair uniquely
identifies a record of the bank, every entry's pair is represented by a
record, and a challenge entry marks the record at its pair challenge
(the flag is monotonic). -/
theorem c2_bank_reconciliation_key (entries : List Entry) :
    ((build_question_bank entries).map (fun q => (q.topic, q.qnum))).Nodup
    ∧ (∀ e ∈ entries, ∃ q ∈ build_question_bank entries,
        q.topic = e.topic ∧ q.qnum = e.qnum)
    ∧ (∀ e ∈ entries, entryIsChallenge e.kind = true →
        ∀ q ∈ build_question_bank entries,
          q.topic = e.topic → q.qnum = e.qnum → q.is_challenge = true) := by
  obtain ⟨hnd, hfield⟩ := bqbFold_wf entries
  refine ⟨?_, ?_, ?_⟩
  · unfold build_question_bank
    rw [List.map_map]
    have hmapeq : (bqbFold entries).map ((fun q => (q.topic, q.qnum)) ∘ (·.2))
        = (bqbFold entries).map (·.1) :=
      List.map_congr_left (fun kq hkq => by
        have hf := hfield kq hkq
        exact Prod.ext hf.1 hf.2)
    rw [hmapeq]
    exact hnd
  · intro e he
    have hkey := bqbFoldFrom_keys_mem entries [] e he
    obtain ⟨kq, hkq, hkeq⟩ := List.mem_map.mp hkey
    refine ⟨kq.2, List.mem_map.mpr ⟨kq, hkq, rfl⟩, ?_, ?_⟩
    · have hf := hfield kq hkq
      rw [hf.1, hkeq]
    · have hf := hfield kq hkq
      rw [hf.2, hkeq]
  · intro e he hch q hq htop hqn
    obtain ⟨q', hlook, hch'⟩ := bqbFoldFrom_challenge entries [] e he hch
    obtain ⟨kq, hkq, rfl⟩ := List.mem_map.mp hq
    have hf := hfield kq hkq
    have hkey : kq.1 = (e.topic, e.qnum) := by
      refine Prod.ext ?_ ?_
      · rw [← hf.1, htop]
      · rw [← hf.2, hqn]
    have hlook2 : lookupQ kq.1 (bqbFold entries) = some kq.2 :=
      lookupQ_of_mem_nodup hnd hkq
    rw [hkey] at hlook2
    unfold bqbFold at hlook2
    rw [hlook] at hlook2
    rw [← Option.some_inj.mp hlook2]
    exact hch'

/-- Question entry T13Q7 used in the C2 counterexample. -/
def c2eQ : Entry :=
  { kind := .question, topic := 13, qnum := 7, level := some 3,
    learning_goals := some ["11"], text := "qtext", page := 2 }

/-- Challenge entry with the same `(topic, qnum)` pair as `c2eQ`. -/
def c2eC : Entry :=
  { kind := .challenge_q, topic := 13, qnum := 7, level := none,
    learning_goals := none, text := "ctext", page := 5 }

/-- The single record produced for the pair (13, 7) from `[c2eQ, c2eC]`. -/
def c2rec : Question :=
  { topic := 13, qnum := 7, is_challenge := true, question_text := "ctext",
    solution_text := none, question_page := some 5, solution_page := none,
    level := some 3, learning_goals := some ["11"] }

/-- C2 counterexample: a non-challenge question entry and a challenge entry
that agree on `(topic, qnum)` but disagree on challenge-ness are folded
into one record — the reconciliation key is the pair, not the triple. -/
theorem c2_triple_key_counterexample :
    entryIsChallenge c2eQ.kind = false ∧ entryIsChallenge c2eC.kind = true
    ∧ (build_question_bank [c2eQ, c2eC]).length = 1 := by decide

/-- Witness for `c2_bank_reconciliation_key` at concrete entries. -/
theorem c2_bank_reconciliation_key_witness :
    (c2eQ ∈ [c2eQ, c2eC]) ∧ entryIsChallenge c2eC.kind = true
    ∧ (∃ q ∈ build_question_bank [c2eQ, c2eC],
        q.topic = c2eQ.topic ∧ q.qnum = c2eQ.qnum)
    ∧ c2rec.is_challenge = true :=
  ⟨by decide, by decide,
   (c2_bank_reconciliation_key [c2eQ, c2eC]).2.1 c2eQ (by decide),
   (c2_bank_reconciliation_key [c2eQ, c2eC]).2.2 c2eC (by decide) (by decide)
     c2rec (by decide) (by decide) (by decide)⟩

/-- C8: reconciliation is commutative in the arrival order of a question's
two halves — for a question entry and a solution entry with the same key,
`build_question_bank` yields the same record either way round. -/
theorem c8_reconciliation_comm (t n lv : Nat) (lgs : List String)
    (qt st : String) (qp sp : Nat) :
    build_question_bank
        [{ kind := .question, topic := t, qnum := n, level := some lv,
           learning_goals := some lgs, text := qt, page := qp },
         { kind := .solution, topic := t, qnum := n, level := none,
           learning_goals := none, text := st, page := sp }]
      = build_question_bank
        [{ kind := .solution, topic := t, qnum := n, level := none,
           learning_goals := none, text := st, page := sp },
         { kind := .question, topic := t, qnum := n, level := some lv,
           learning_goals := some lgs, text := qt, page := qp }] := by
  simp [build_question_bank, bqbFold, bqbStep, lookupQ, updateAt,
        freshQuestion, applyEntry, entryIsChallenge]

/-! ## The PDF assemblers of `exam_bank/pdf_utils.py`

Each builder walks the record list and appends source pages to a `PdfWriter`;
we model the built document by the list of 0-based page indices added, in
order.  `build_question_pdf` computes `q.question_page - 1` unconditionally
(a `TypeError` when the page is `None`, modelled as `none`); the other two
builders test for `None` before using a page. -/

/-- `build_question_pdf`: pages added, or `none` when some record has no
question page (the Python code raises instead of skipping). -/
def build_question_pdf_pages : List Question → Option (List Nat)
  | [] => some []
  | q :: rest =>
    match q.question_page with
    | none => none
    | some p => (build_question_pdf_pages rest).map (fun l => (p - 1) :: l)

/-- `build_solution_pdf`: records without a solution page are skipped. -/
def build_solution_pdf_pages : List Question → List Nat
  | [] => []
  | q :: rest =>
    match q.solution_page with
    | none => build_solution_pdf_pages rest
    | some p => (p - 1) :: build_solution_pdf_pages rest

/-- `build_interleaved_q_and_a_pdf`: per record, the question page if
present, then the solution page if present. -/
def build_interleaved_pages : List Question → List Nat
  | [] => []
  | q :: rest =>
    (match q.question_page with | none => [] | some p => [p - 1]) ++
    (match q.solution_page with | none => [] | some p => [p - 1]) ++
    build_interleaved_pages rest

/-- C3 (amended): the solutions-only builder emits, in record order, the
0-based solution page of every record that has one; the interleaved builder
emits per record its question page (when present) immediately followed by
its solution page (when present); the questions-only builder emits every
record's question page in order but does **not** skip records lacking one —
it fails (`TypeError`) on the first such record. -/
theorem c3_pdf_builders (qs : List Question) :
    build_solution_pdf_pages qs
        = (qs.filterMap (fun q => q.solution_page)).map (fun p => p - 1)
    ∧ build_interleaved_pages qs
        = qs.bind (fun q =>
            ((q.question_page.toList ++ q.solution_page.toList).map (fun p => p - 1)))
    ∧ build_question_pdf_pages qs
        = (if qs.all (fun q => q.question_page.isSome) then
            some ((qs.filterMap (fun q => q.question_page)).map (fun p => p - 1))
          else none) := by
  induction qs with
  | nil => exact ⟨rfl, rfl, rfl⟩
  | cons q rest ih =>
    obtain ⟨ih1, ih2, ih3⟩ := ih
    refine ⟨?_, ?_, ?_⟩
    · cases hs : q.solution_page <;>
        simp [build_solution_pdf_pages, hs, ih1, List.filterMap_cons]
    · cases hqp : q.question_page <;> cases hs : q.solution_page <;>
        simp [build_interleaved_pages, hqp, hs, ih2]
    · cases hqp : q.question_page with
      | none => simp [build_question_pdf_pages, hqp]
      | some p =>
        by_cases hall : rest.all (fun q => q.question_page.isSome) = true
        · simp [build_question_pdf_pages, hqp, ih3, hall, List.filterMap_cons]
        · simp [build_question_pdf_pages, hqp, ih3, hall]

/-- A record with no mapped question page (all optional fields absent). -/
def c3noPage : Question :=
  { topic := 13, qnum := 9, is_challenge := false, question_text := "q" }

/-- C3 counterexample: on a record whose question page is absent the
questions-only builder fails (`none`) instead of skipping the record —
skipping would have produced the empty page list. -/
theorem c3_no_skip_counterexample :
    build_question_pdf_pages [c3noPage] = none
    ∧ (([c3noPage].filterMap (fun q => q.question_page)).map (fun p => p - 1)) = [] :=
  ⟨by decide, by decide⟩

/-! ## `select_questions` of `exam_bank/pdf_utils.py` -/

/-- The sort key of `select_questions`: `(topic, challenge-bit, qnum)`. -/
def sortKey (q : Question) : Nat × Nat × Nat :=
  (q.topic, (if q.is_challenge then 1 else 0), q.qnum)

/-- Python tuple comparison: lexicographic on the three components. -/
def tripleLE (a b : Nat × Nat × Nat) : Bool :=
  decide (a.1 < b.1) ||
    (decide (a.1 = b.1) &&
      (decide (a.2.1 < b.2.1) ||
        (decide (a.2.1 = b.2.1) && decide (a.2.2 ≤ b.2.2))))

/-- The filter chain of `select_questions`, one conjunct per `continue`
test, in source order: challenge toggle, topic filter (all records), level
filter (non-challenge records only), learning-goal overlap, required
question page, required solution page. -/
def passesFilters (topics : Option (List Nat)) (include_challenges : Bool)
    (levels : Option (List Nat)) (lgs : Option (List String)) (rq rs : Bool)
    (q : Question) : Bool :=
  (!(q.is_challenge && !include_challenges))
  && (match topics with
      | none => true
      | some ts => decide (q.topic ∈ ts))
  && (match levels with
      | none => true
      | some ls =>
        if q.is_challenge then true
        else match q.level with
          | none => false
          | some l => decide (l ∈ ls))
  && (match lgs with
      | none => true
      | some gs => gs.any (fun g => decide (g ∈ q.learning_goals.getD [])))
  && (!rq || q.question_page.isSome)
  && (!rs || q.solution_page.isSome)

/-- `select_questions`: filter, then the stable sort by `sortKey`. -/
def select_questions (questions : List Question) (topics : Option (List Nat))
    (include_challenges : Bool) (levels : Option (List Nat))
    (lgs : Option (List String)) (rq rs : Bool) : List Question :=
  List.insertionSort (fun a b => tripleLE (sortKey a) (sortKey b) = true)
    (questions.filter (passesFilters topics include_challenges levels lgs rq rs))

/-- C6: with a topic filter, every selected record's topic is in the set
(challenge or not); with a level filter, a selected non-challenge record
has a level in the set (records with absent or excluded levels are
dropped), while a challenge record's selection is unaffected by the level
filter. -/
theorem c6_select_filters (qs : List Question) (ts : List Nat)
    (tso : Option (List Nat)) (inc : Bool) (ls : List Nat)
    (lso : Option (List Nat)) (lgs : Option (List String)) (rq rs : Bool)
    (q : Question) :
    (q ∈ select_questions qs (some ts) inc lso lgs rq rs → q.topic ∈ ts)
    ∧ (q.is_challenge = false →
        q ∈ select_questions qs tso inc (some ls) lgs rq rs →
        ∃ l, q.level = some l ∧ l ∈ ls)
    ∧ (q.is_challenge = true →
        (q ∈ select_questions qs tso inc (some ls) lgs rq rs
          ↔ q ∈ select_questions qs tso inc none lgs rq rs)) := by
  refine ⟨?_, ?_, ?_⟩
  · intro h
    rw [select_questions, List.mem_insertionSort, List.mem_filter] at h
    have hp := h.2
    simp only [passesFilters, Bool.and_eq_true, decide_eq_true_eq] at hp
    exact hp.1.1.1.1.2
  · intro hnc h
    rw [select_questions, List.mem_insertionSort, List.mem_filter] at h
    have hp := h.2
    simp only [passesFilters, Bool.and_eq_true] at hp
    have h3 := hp.1.1.1.2
    cases hl : q.level with
    | none =>
      rw [hnc, hl] at h3
      simp at h3
    | some l =>
      rw [hnc, hl] at h3
      simp at h3
      exact ⟨l, rfl, h3⟩
  · intro hch
    have hpeq : passesFilters tso inc (some ls) lgs rq rs q
        = passesFilters tso inc none lgs rq rs q := by
      simp [passesFilters, hch]
    rw [select_questions, select_questions, List.mem_insertionSort,
        List.mem_insertionSort, List.mem_filter, List.mem_filter, hpeq]

/-- A non-challenge record passing all filters, for the C6 witness. -/
def c6q : Question :=
  { topic := 13, qnum := 2, is_challenge := false, question_text := "x",
    solution_text := some "s", question_page := some 3,
    solution_page := some 4, level := some 2, learning_goals := some ["1"] }

/-- A challenge record (no level), for the C6 witness. -/
def c6c : Question :=
  { topic := 14, qnum := 0, is_challenge := true, question_text := "c",
    solution_text := some "cs", question_page := some 7,
    solution_page := some 8 }

/-- Witness for `c6_select_filters` at concrete records and filters. -/
theorem c6_select_filters_witness :
    (c6q ∈ select_questions [c6q, c6c] (some [13, 14]) true (some [2]) none true true)
    ∧ (c6q.topic ∈ [13, 14])
    ∧ c6q.is_challenge = false
    ∧ (∃ l, c6q.level = some l ∧ l ∈ [2])
    ∧ c6c.is_challenge = true
    ∧ ((c6c ∈ select_questions [c6q, c6c] (some [13, 14]) true (some [2]) none true true)
        ↔ (c6c ∈ select_questions [c6q, c6c] (some [13, 14]) true none none true true)) :=
  ⟨by decide,
   (c6_select_filters [c6q, c6c] [13, 14] (some [13, 14]) true [2] (some [2])
      none true true c6q).1 (by decide),
   by decide,
   (c6_select_filters [c6q, c6c] [13, 14] (some [13, 14]) true [2] (some [2])
      none true true c6q).2.1 (by decide) (by decide),
   by decide,
   (c6_select_filters [c6q, c6c] [13, 14] (some [13, 14]) true [2] (some [2])
      none true true c6c).2.2 (by decide)⟩

/-! ## The sampler of `app.py`

`random.sample(pool, k)` (defined for `k ≤ len(pool)`) is abstracted as a
parameter `pick` together with the hypothesis that it returns exactly `k`
elements of the pool; `random.shuffle` permutes the selected list in place
and is omitted, as membership and length are invariant under it. Python
sets of ids are modelled as lists read up to membership. -/

/-- `question_id` of `app.py`: `f"T{topic}-Q{qnum}-C{int(bool(is_challenge))}"`. -/
def question_id (q : Question) : String :=
  "T" ++ toString q.topic ++ "-Q" ++ toString q.qnum ++ "-C"
    ++ (if q.is_challenge then "1" else "0")

/-- The candidate filter of `sample_questions_even_by_topic`: a mapped
question page, and (under `avoid_used`) an id not yet used. -/
def eligible (questions : List Question) (used_ids : List String)
    (avoid_used : Bool) : List Question :=
  questions.filter (fun q =>
    q.question_page.isSome
      && (!avoid_used || !(decide (question_id q ∈ used_ids))))

/-- One `for t in topics` sweep of the round-robin loop over
(allocated, capacity) pairs: grant one slot to each topic with spare
capacity until `remaining` hits 0; return the new pairs and remainder. -/
def sweepAlloc : List (Nat × Nat) → Nat → List (Nat × Nat) × Nat
  | [], rem => ([], rem)
  | p :: rest, rem =>
    if rem = 0 then (p :: rest, rem)
    else if p.1 < p.2 then
      ((p.1 + 1, p.2) :: (sweepAlloc rest (rem - 1)).1,
       (sweepAlloc rest (rem - 1)).2)
    else
      (p :: (sweepAlloc rest rem).1, (sweepAlloc rest rem).2)

/-- The `while remaining > 0` loop: sweep until the remainder stops
decreasing (`made_progress`) or reaches zero. The fuel argument equals the
initial remainder; every recursive call strictly decreases the remainder,
so with `fuel = rem` the fuel-exhausted arm is never taken. -/
def rrIter : Nat → List (Nat × Nat) → Nat → List (Nat × Nat)
  | _, ac, 0 => ac
  | 0, ac, _ + 1 => ac
  | fuel + 1, ac, rem + 1 =>
    if (sweepAlloc ac (rem + 1)).2 < rem + 1 then
      rrIter fuel (sweepAlloc ac (rem + 1)).1 (sweepAlloc ac (rem + 1)).2
    else (sweepAlloc ac (rem + 1)).1

/-- The complete round-robin loop starting from the given pairs. -/
def rrLoop (ac : List (Nat × Nat)) (rem : Nat) : List (Nat × Nat) :=
  rrIter rem ac rem

/-- Slots allocated per topic by the sampler, given the topics' candidate
counts (in sorted-topic order) and the number `n` of slots to hand out. -/
def sampler_allocation (counts : List Nat) (n : Nat) : List Nat :=
  (rrLoop (counts.map (fun c => (0, c))) n).map (·.1)

/-- `by_topic[t]` — candidates of topic `t`, in candidate order. -/
def byTopic (cands : List Question) (t : Nat) : List Question :=
  cands.filter (fun q => decide (q.topic = t))

/-- `topics = sorted(by_topic.keys())`. -/
def topicsOf (cands : List Question) : List Nat :=
  List.insertionSort (· ≤ ·) ((cands.map (·.topic)).dedup)

/-- The `for t in topics: ... selected.extend(random.sample(...))` loop
over (topic, allocation) pairs; `k <= 0` topics are skipped. -/
def zipSelect (pick : List Question → Nat → List Question)
    (cands : List Question) : List (Nat × Nat) → List Question
  | [] => []
  | ta :: rest =>
    (if ta.2 = 0 then [] else pick (byTopic cands ta.1) ta.2)
      ++ zipSelect pick cands rest

/-- Group, allocate round-robin, and sample `alloc[t]` per topic. -/
def sampleCore (pick : List Question → Nat → List Question)
    (cands : List Question) (n : Nat) : List Question :=
  zipSelect pick cands
    ((topicsOf cands).zip
      (sampler_allocation ((topicsOf cands).map
        (fun t => (byTopic cands t).length)) n))

/-- `sample_questions_even_by_topic` of `app.py` (with `random.sample`
abstracted as `pick`): returns the selection and the updated used-id set. -/
def sample_questions_even_by_topic (pick : List Question → Nat → List Question)
    (questions : List Question) (n_desired : Nat) (used_ids : List String)
    (avoid_used : Bool) : List Question × List String :=
  if (eligible questions used_ids avoid_used).isEmpty then ([], used_ids)
  else if (topicsOf (eligible questions used_ids avoid_used)).isEmpty then
    ([], used_ids)
  else
    (sampleCore pick (eligible questions used_ids avoid_used)
        (min n_desired (eligible questions used_ids avoid_used).length),
     used_ids ++ (sampleCore pick (eligible questions used_ids avoid_used)
        (min n_desired (eligible questions used_ids avoid_used).length)).map
          question_id)

/-! ### Allocation lemmas -/

theorem sweepAlloc_caps :
    ∀ (ac : List (Nat × Nat)) (r : Nat), (sweepAlloc ac r).1.map (·.2) = ac.map (·.2)
  | [], r => rfl
  | p :: rest, r => by
    by_cases h0 : r = 0
    · simp [sweepAlloc, h0]
    · by_cases hpc : p.1 < p.2 <;>
        simp [sweepAlloc, h0, hpc, sweepAlloc_caps rest]

theorem sweepAlloc_le :
    ∀ {ac : List (Nat × Nat)} {r : Nat}, (∀ p ∈ ac, p.1 ≤ p.2) →
      ∀ p ∈ (sweepAlloc ac r).1, p.1 ≤ p.2
  | [], r, h => by simpa [sweepAlloc] using h
  | p :: rest, r, h => by
    by_cases h0 : r = 0
    · simpa [sweepAlloc, h0] using h
    · by_cases hpc : p.1 < p.2
      · intro p' hp'
        simp only [sweepAlloc, if_neg h0, if_pos hpc, List.mem_cons] at hp'
        rcases hp' with rfl | hp'
        · exact hpc
        · exact sweepAlloc_le (fun x hx => h x (List.mem_cons_of_mem _ hx)) p' hp'
      · intro p' hp'
        simp only [sweepAlloc, if_neg h0, if_neg hpc, List.mem_cons] at hp'
        rcases hp' with rfl | hp'
        · exact h p' (List.mem_cons_self _ _)
        · exact sweepAlloc_le (fun x hx => h x (List.mem_cons_of_mem _ hx)) p' hp'

theorem sweepAlloc_conserve :
    ∀ (ac : List (Nat × Nat)) (r : Nat),
      ((sweepAlloc ac r).1.map (·.1)).sum + (sweepAlloc ac r).2
        = (ac.map (·.1)).sum + r
  | [], r => by simp [sweepAlloc]
  | p :: rest, r => by
    by_cases h0 : r = 0
    · simp [sweepAlloc, h0]
    · by_cases hpc : p.1 < p.2
      · have ih := sweepAlloc_conserve rest (r - 1)
        simp only [sweepAlloc, if_neg h0, if_pos hpc, List.map_cons, List.sum_cons]
        omega
      · have ih := sweepAlloc_conserve rest r
        simp only [sweepAlloc, if_neg h0, if_neg hpc, List.map_cons, List.sum_cons]
        omega

theorem rrIter_caps :
    ∀ (fuel : Nat) (ac : List (Nat × Nat)) (rem : Nat),
      (rrIter fuel ac rem).map (·.2) = ac.map (·.2)
  | _, _, 0 => by simp only [rrIter]
  | 0, _, _ + 1 => by simp only [rrIter]
  | fuel + 1, ac, rem + 1 => by
    by_cases h : (sweepAlloc ac (rem + 1)).2 < rem + 1
    · simp only [rrIter, if_pos h]
      rw [rrIter_caps fuel _ _, sweepAlloc_caps]
    · simp only [rrIter, if_neg h]
      exact sweepAlloc_caps ac (rem + 1)

theorem rrIter_le :
    ∀ (fuel : Nat) {ac : List (Nat × Nat)} {rem : Nat},
      (∀ p ∈ ac, p.1 ≤ p.2) → ∀ p ∈ rrIter fuel ac rem, p.1 ≤ p.2
  | _, _, 0, h => by simpa only [rrIter] using h
  | 0, _, _ + 1, h => by simpa only [rrIter] using h
  | fuel + 1, ac, rem + 1, h => by
    by_cases hc : (sweepAlloc ac (rem + 1)).2 < rem + 1
    · simp only [rrIter, if_pos hc]
      exact rrIter_le fuel (sweepAlloc_le h)
    · simp only [rrIter, if_neg hc]
      exact sweepAlloc_le h

theorem rrIter_sum :
    ∀ (fuel : Nat) (ac : List (Nat × Nat)) (rem : Nat),
      ((rrIter fuel ac rem).map (·.1)).sum ≤ (ac.map (·.1)).sum + rem
  | _, ac, 0 => by simp only [rrIter]; exact Nat.le_add_right _ _
  | 0, ac, _ + 1 => by simp only [rrIter]; exact Nat.le_add_right _ _
  | fuel + 1, ac, rem + 1 => by
    by_cases h : (sweepAlloc ac (rem + 1)).2 < rem + 1
    · have h1 := rrIter_sum fuel (sweepAlloc ac (rem + 1)).1 (sweepAlloc ac (rem + 1)).2
      have h2 := sweepAlloc_conserve ac (rem + 1)
      simp only [rrIter, if_pos h]
      omega
    · have h2 := sweepAlloc_conserve ac (rem + 1)
      simp only [rrIter, if_neg h]
      omega

theorem pairs_forall₂ :
    ∀ {l : List (Nat × Nat)}, (∀ p ∈ l, p.1 ≤ p.2) →
      List.Forall₂ (· ≤ ·) (l.map (·.1)) (l.map (·.2))
  | [], _ => List.Forall₂.nil
  | p :: rest, h =>
    List.Forall₂.cons (h p (List.mem_cons_self _ _))
      (pairs_forall₂ (fun x hx => h x (List.mem_cons_of_mem _ hx)))

theorem sum_map_zero_fn : ∀ l : List Nat, (l.map (fun _ => (0 : Nat))).sum = 0
  | [] => rfl
  | x :: xs => by simp [sum_map_zero_fn xs]

theorem sampler_allocation_le (counts : List Nat) (n : Nat) :
    List.Forall₂ (· ≤ ·) (sampler_allocation counts n) counts := by
  have hle : ∀ p ∈ rrLoop (counts.map (fun c => (0, c))) n, p.1 ≤ p.2 := by
    refine rrIter_le n ?_
    intro p hp
    obtain ⟨c, hc, rfl⟩ := List.mem_map.mp hp
    exact Nat.zero_le c
  have hcaps : (rrLoop (counts.map (fun c => (0, c))) n).map (·.2) = counts := by
    unfold rrLoop
    rw [rrIter_caps, List.map_map]
    simp
  have hf := pairs_forall₂ hle
  rw [hcaps] at hf
  exact hf

theorem sampler_allocation_sum (counts : List Nat) (n : Nat) :
    (sampler_allocation counts n).sum ≤ n := by
  have h1 := rrIter_sum n (counts.map (fun c => (0, c))) n
  have h0 : ((counts.map (fun c => (0, c))).map (·.1)).sum = 0 := by
    rw [List.map_map]
    exact sum_map_zero_fn counts
  unfold sampler_allocation rrLoop
  omega

/-! ### Selection lemmas -/

theorem byTopic_subset {cands : List Question} {t : Nat} {q : Question}
    (h : q ∈ byTopic cands t) : q ∈ cands :=
  (List.mem_filter.mp h).1

theorem zipSelect_length (pick : List Question → Nat → List Question)
    (hpick : ∀ l k, k ≤ l.length →
      (pick l k).length = k ∧ ∀ x ∈ pick l k, x ∈ l)
    (cands : List Question) :
    ∀ (ts ks : List Nat),
      List.Forall₂ (· ≤ ·) ks (ts.map (fun t => (byTopic cands t).length)) →
      (zipSelect pick cands (ts.zip ks)).length = ks.sum
  | [], ks, h => by
    cases h
    rfl
  | t :: ts', ks, h => by
    rw [List.map_cons] at h
    cases h with
    | cons h1 h2 =>
      rename_i k ks'
      rw [List.zip_cons_cons, zipSelect, List.length_append,
        zipSelect_length pick hpick cands ts' ks' h2, List.sum_cons]
      by_cases hk : k = 0
      · simp [hk]
      · rw [if_neg hk, (hpick _ k h1).1]

theorem zipSelect_mem (pick : List Question → Nat → List Question)
    (hpick : ∀ l k, k ≤ l.length →
      (pick l k).length = k ∧ ∀ x ∈ pick l k, x ∈ l)
    (cands : List Question) :
    ∀ (ts ks : List Nat) (q : Question),
      List.Forall₂ (· ≤ ·) ks (ts.map (fun t => (byTopic cands t).length)) →
      q ∈ zipSelect pick cands (ts.zip ks) →
      q ∈ cands
  | [], ks, q, h, hq => by
    cases h
    exact absurd hq (List.not_mem_nil q)
  | t :: ts', ks, q, h, hq => by
    rw [List.map_cons] at h
    cases h with
    | cons h1 h2 =>
      rename_i k ks'
      rw [List.zip_cons_cons, zipSelect, List.mem_append] at hq
      rcases hq with hq | hq
      · by_cases hk : k = 0
        · rw [if_pos hk] at hq
          exact absurd hq (List.not_mem_nil q)
        · rw [if_neg hk] at hq
          exact byTopic_subset ((hpick _ k h1).2 q hq)
      · exact zipSelect_mem pick hpick cands ts' ks' q h2 hq

theorem sampleCore_length_le (pick : List Question → Nat → List Question)
    (hpick : ∀ l k, k ≤ l.length →
      (pick l k).length = k ∧ ∀ x ∈ pick l k, x ∈ l)
    (cands : List Question) (n : Nat) :
    (sampleCore pick cands n).length ≤ n := by
  unfold sampleCore
  rw [zipSelect_length pick hpick cands _ _ (sampler_allocation_le _ n)]
  exact sampler_allocation_sum _ n

theorem sampleCore_mem (pick : List Question → Nat → List Question)
    (hpick : ∀ l k, k ≤ l.length →
      (pick l k).length = k ∧ ∀ x ∈ pick l k, x ∈ l)
    (cands : List Question) (n : Nat) {q : Question}
    (hq : q ∈ sampleCore pick cands n) : q ∈ cands :=
  zipSelect_mem pick hpick cands _ _ q (sampler_allocation_le _ n) hq

/-- C4: under the contract of `random.sample` (exactly `k` elements of the
pool), the sampler returns at most `min(n_desired, #eligible)` records;
the round-robin allocation never exceeds any topic's candidate count; with
`avoid_used` no returned record's id is in the input used-set; and every
returned record's id is in the returned used-set. -/
theorem c4_sampler_bounds (pick : List Question → Nat → List Question)
    (hpick : ∀ l k, k ≤ l.length →
      (pick l k).length = k ∧ ∀ x ∈ pick l k, x ∈ l)
    (questions : List Question) (n_desired : Nat) (used_ids : List String)
    (avoid_used : Bool) :
    (sample_questions_even_by_topic pick questions n_desired used_ids avoid_used).1.length
        ≤ min n_desired (eligible questions used_ids avoid_used).length
    ∧ (∀ (counts : List Nat) (n : Nat),
        List.Forall₂ (· ≤ ·) (sampler_allocation counts n) counts)
    ∧ (avoid_used = true →
        ∀ q ∈ (sample_questions_even_by_topic pick questions n_desired used_ids avoid_used).1,
          question_id q ∉ used_ids)
    ∧ (∀ q ∈ (sample_questions_even_by_topic pick questions n_desired used_ids avoid_used).1,
        question_id q
          ∈ (sample_questions_even_by_topic pick questions n_desired used_ids avoid_used).2) := by
  refine ⟨?_, fun counts n => sampler_allocation_le counts n, ?_, ?_⟩
  · unfold sample_questions_even_by_topic
    split
    · exact Nat.zero_le _
    · split
      · exact Nat.zero_le _
      · exact sampleCore_length_le pick hpick _ _
  · intro hav q hq
    unfold sample_questions_even_by_topic at hq
    split at hq
    · exact absurd hq (List.not_mem_nil q)
    · split at hq
      · exact absurd hq (List.not_mem_nil q)
      · have hel := sampleCore_mem pick hpick _ _ hq
        have hp := (List.mem_filter.mp hel).2
        rw [hav] at hp
        simp only [Bool.not_true, Bool.false_or, Bool.and_eq_true,
          Bool.not_eq_true', decide_eq_false_iff_not] at hp
        exact hp.2
  · intro q hq
    unfold sample_questions_even_by_topic at hq ⊢
    by_cases h1 : (eligible questions used_ids avoid_used).isEmpty = true
    · rw [if_pos h1] at hq
      exact absurd hq (List.not_mem_nil q)
    · rw [if_neg h1] at hq ⊢
      by_cases h2 : (topicsOf (eligible questions used_ids avoid_used)).isEmpty = true
      · rw [if_pos h2] at hq
        exact absurd hq (List.not_mem_nil q)
      · rw [if_neg h2] at hq ⊢
        exact List.mem_append.mpr (Or.inr (List.mem_map.mpr ⟨q, hq, rfl⟩))

/-- A deterministic instance of `random.sample`'s contract: the first `k`. -/
def pickTake : List Question → Nat → List Question := fun l k => l.take k

theorem pickTake_spec : ∀ (l : List Question) (k : Nat), k ≤ l.length →
    ((pickTake l k).length = k ∧ ∀ x ∈ pickTake l k, x ∈ l) := by
  intro l k hk
  refine ⟨?_, ?_⟩
  · rw [pickTake, List.length_take]
    exact Nat.min_eq_left hk
  · intro x hx
    exact List.take_subset k l hx

/-- A topic-13 candidate for the C4 witness. -/
def c4qa : Question :=
  { topic := 13, qnum := 1, is_challenge := false, question_text := "a",
    question_page := some 1 }

/-- A topic-14 candidate for the C4 witness. -/
def c4qb : Question :=
  { topic := 14, qnum := 2, is_challenge := false, question_text := "b",
    question_page := some 2 }

/-- Witness for `c4_sampler_bounds`: `pick` instantiated with `pickTake`
(which satisfies the `random.sample` contract) on a concrete pool. -/
theorem c4_sampler_bounds_witness :
    (∀ (l : List Question) (k : Nat), k ≤ l.length →
      ((pickTake l k).length = k ∧ ∀ x ∈ pickTake l k, x ∈ l))
    ∧ ((sample_questions_even_by_topic pickTake [c4qa, c4qb] 1 [] true).1.length
        ≤ min 1 (eligible [c4qa, c4qb] [] true).length
      ∧ (∀ (counts : List Nat) (n : Nat),
          List.Forall₂ (· ≤ ·) (sampler_allocation counts n) counts)
      ∧ (true = true →
          ∀ q ∈ (sample_questions_even_by_topic pickTake [c4qa, c4qb] 1 [] true).1,
            question_id q ∉ ([] : List String))
      ∧ (∀ q ∈ (sample_questions_even_by_topic pickTake [c4qa, c4qb] 1 [] true).1,
          question_id q
            ∈ (sample_questions_even_by_topic pickTake [c4qa, c4qb] 1 [] true).2)) :=
  ⟨pickTake_spec, c4_sampler_bounds pickTake pickTake_spec [c4qa, c4qb] 1 [] true⟩

/-- C5: at the allocation level used by the sampler, candidate counts
[5,5,5] with n=9 allocate 3 slots to each topic, and [1,5,5] with n=9
allocate 1 to the size-1 topic and 4 to each of the others. -/
theorem c5_allocation_fair :
    sampler_allocation [5, 5, 5] 9 = [3, 3, 3]
    ∧ sampler_allocation [1, 5, 5] 9 = [1, 4, 4] := by
  refine ⟨by decide, by decide⟩

/-! ## JSON persistence (`save_question_bank_json` / `load_question_bank_json`)

`save` serialises `[asdict(q) for q in questions]` with `json.dump`; `load`
reads with `json.load` and rebuilds `Question(**q)`.  We model the JSON
document as a tree; `json.dump` followed by `json.load` is the identity on
this fragment (ints, bools, strings, nulls, arrays, objects), so saving is
modelled as producing the tree and loading as decoding it, with decoding
faulting (`none`) where `Question(**q)` would fault (unknown or missing
required keys) or where a value does not have the dataclass's declared
field type. -/

/-- JSON values as produced by `json.dump`/`json.load` on this data. -/
inductive JValue where
  | null
  | jbool (b : Bool)
  | jnum (n : Int)
  | jstr (s : String)
  | jarr (xs : List JValue)
  | jobj (fields : List (String × JValue))

/-- `asdict(q)`: the nine dataclass fields in declaration order, `None`
as `null`, the learning-goal list as a string array. -/
def questionToJson (q : Question) : JValue :=
  .jobj
    [("topic", .jnum q.topic), ("qnum", .jnum q.qnum),
     ("is_challenge", .jbool q.is_challenge),
     ("question_text", .jstr q.question_text),
     ("solution_text", match q.solution_text with
       | none => .null
       | some s => .jstr s),
     ("question_page", match q.question_page with
       | none => .null
       | some p => .jnum p),
     ("solution_page", match q.solution_page with
       | none => .null
       | some p => .jnum p),
     ("level", match q.level with
       | none => .null
       | some l => .jnum l),
     ("learning_goals", match q.learning_goals with
       | none => .null
       | some gs => .jarr (gs.map .jstr))]

/-- `save_question_bank_json`: the JSON array written to the file. -/
def save_question_bank_json (questions : List Question) : JValue :=
  .jarr (questions.map questionToJson)

/-- First-occurrence key lookup in a JSON object. -/
def getField (k : String) : List (String × JValue) → Option JValue
  | [] => none
  | kv :: rest => if kv.1 = k then some kv.2 else getField k rest

/-- Decode a non-negative JSON int (the dataclass declares `int`). -/
def decodeNat : JValue → Option Nat
  | .jnum n => if h : 0 ≤ n then some n.toNat else none
  | _ => none

def decodeBool : JValue → Option Bool
  | .jbool b => some b
  | _ => none

def decodeStr : JValue → Option String
  | .jstr s => some s
  | _ => none

def decodeOptNat : JValue → Option (Option Nat)
  | .null => some none
  | .jnum n => if h : 0 ≤ n then some (some n.toNat) else none
  | _ => none

def decodeOptStr : JValue → Option (Option String)
  | .null => some none
  | .jstr s => some (some s)
  | _ => none

def decodeStrList : List JValue → Option (List String)
  | [] => some []
  | .jstr s :: rest => (decodeStrList rest).map (fun l => s :: l)
  | _ => none

def decodeOptStrList : JValue → Option (Option (List String))
  | .null => some none
  | .jarr xs => (decodeStrList xs).map some
  | _ => none

/-- The nine parameter names accepted by `Question(**q)`. -/
def questionFieldNames : List String :=
  ["topic", "qnum", "is_challenge", "question_text", "solution_text",
   "question_page", "solution_page", "level", "learning_goals"]

/-- An optional dataclass field: absent key means the default. -/
def optionalField {α : Type} (fs : List (String × JValue)) (k : String)
    (dec : JValue → Option (Option α)) : Option (Option α) :=
  match getField k fs with
  | none => some none
  | some v => dec v

/-- `Question(**q)` from a JSON object: required fields must be present,
every present key must be a parameter name, optional fields default. -/
def questionOfJson : JValue → Option Question
  | .jobj fs =>
    if fs.all (fun kv => decide (kv.1 ∈ questionFieldNames)) then do
      let topic ← (getField "topic" fs).bind decodeNat
      let qnum ← (getField "qnum" fs).bind decodeNat
      let is_challenge ← (getField "is_challenge" fs).bind decodeBool
      let question_text ← (getField "question_text" fs).bind decodeStr
      let solution_text ← optionalField fs "solution_text" decodeOptStr
      let question_page ← optionalField fs "question_page" decodeOptNat
      let solution_page ← optionalField fs "solution_page" decodeOptNat
      let level ← optionalField fs "level" decodeOptNat
      let learning_goals ← optionalField fs "learning_goals" decodeOptStrList
      some { topic := topic, qnum := qnum, is_challenge := is_challenge,
             question_text := question_text, solution_text := solution_text,
             question_page := question_page, solution_page := solution_page,
             level := level, learning_goals := learning_goals }
    else none
  | _ => none

/-- `load_question_bank_json`: `[Question(**q) for q in data]`. -/
def load_question_bank_json : JValue → Option (List Question)
  | .jarr xs => xs.mapM questionOfJson
  | _ => none

theorem decodeStrList_map :
    ∀ gs : List String, decodeStrList (gs.map JValue.jstr) = some gs
  | [] => rfl
  | s :: rest => by
    simp only [List.map_cons, decodeStrList, decodeStrList_map rest, Option.map_some']

theorem questionOfJson_toJson (q : Question) :
    questionOfJson (questionToJson q) = some q := by
  obtain ⟨t, n, ch, qt, st, qp, sp, lv, lg⟩ := q
  cases st <;> cases qp <;> cases sp <;> cases lv <;> cases lg <;>
    simp [questionToJson, questionOfJson, questionFieldNames, getField,
      optionalField, decodeNat, decodeBool, decodeStr, decodeOptNat,
      decodeOptStr, decodeOptStrList, decodeStrList_map]

/-- C7: loading after saving round-trips — every field of every record is
restored, optional fields as present or absent, and even the order of
records is preserved (hence equality as a set of records as claimed). -/
theorem c7_save_load_roundtrip (questions : List Question) :
    load_question_bank_json (save_question_bank_json questions)
      = some questions := by
  induction questions with
  | nil => rfl
  | cons q rest ih =>
    simp only [save_question_bank_json, load_question_bank_json,
      List.map_cons, List.mapM_cons, questionOfJson_toJson] at ih ⊢
    rw [ih]
    rfl

/-! ## `analyze_duplicates` of `scripts/find_duplicates.py`

The summary's `page_usage` maps page numbers to entry strings like
`"T5-Q3-C0:Q"`; it is modelled as a list of (page, entries). The script
splits each entry at the first colon, accumulates for each base id the
*set* of pages its `:Q` entries appear on, and flags the id as duplicate
when that set has more than one page. -/

/-- `entry.split(":", 1)`. -/
def splitFirstColon : List Char → Option (List Char × List Char)
  | [] => none
  | c :: cs =>
    if c = ':' then some ([], cs)
    else (splitFirstColon cs).map (fun p => (c :: p.1, p.2))

/-- `(base_id, kind)` of one entry string (kind `"?"` without a colon). -/
def entryBaseKind (s : String) : String × String :=
  match splitFirstColon s.data with
  | some p => (String.mk p.1, String.mk p.2)
  | none => (s, "?")

/-- Whether the summary claims page `p` for `id` under the `:Q` suffix. -/
def claimsQ (pu : List (Nat × List String)) (i : String) (p : Nat) : Bool :=
  pu.any (fun pe => decide (pe.1 = p)
    && pe.2.any (fun e => decide (entryBaseKind e = (i, "Q"))))

/-- `q_pages_map[id]` — the distinct pages whose entry list claims `id:Q`
(page keys of a dict are distinct; `dedup` models the set). -/
def qPagesList (pu : List (Nat × List String)) (i : String) : List Nat :=
  ((pu.filter (fun pe =>
      pe.2.any (fun e => decide (entryBaseKind e = (i, "Q"))))).map (·.1)).dedup

/-- The script's duplicate test: `len(q_pages_map[id]) > 1`. -/
def isDuplicate (pu : List (Nat × List String)) (i : String) : Bool :=
  decide (1 < (qPagesList pu i).length)

/-- All base ids appearing with kind `Q` (the keys of `q_pages_map`). -/
def qIdsAux : List (Nat × List String) → List String
  | [] => []
  | pe :: rest =>
    pe.2.filterMap (fun e =>
        if (entryBaseKind e).2 = "Q" then some (entryBaseKind e).1 else none)
      ++ qIdsAux rest

/-- Distinct `q_pages_map` keys. -/
def qIds (pu : List (Nat × List String)) : List String := (qIdsAux pu).dedup

/-- The `duplicates` set computed by `analyze_duplicates`. -/
def duplicatesOf (pu : List (Nat × List String)) : List String :=
  (qIds pu).filter (fun i => isDuplicate pu i)

theorem mem_qPagesList {pu : List (Nat × List String)} {i : String} {p : Nat} :
    p ∈ qPagesList pu i ↔ claimsQ pu i p = true := by
  unfold qPagesList claimsQ
  rw [List.mem_dedup, List.mem_map, List.any_eq_true]
  constructor
  · rintro ⟨pe, hpe, rfl⟩
    rw [List.mem_filter] at hpe
    exact ⟨pe, hpe.1, by simp [hpe.2]⟩
  · rintro ⟨pe, hpe, hcond⟩
    simp only [Bool.and_eq_true, decide_eq_true_eq] at hcond
    exact ⟨pe, List.mem_filter.mpr ⟨hpe, hcond.2⟩, hcond.1⟩

theorem claimsQ_mem_qIdsAux {i : String} {p : Nat} :
    ∀ {pu : List (Nat × List String)}, claimsQ pu i p = true → i ∈ qIdsAux pu
  | [], h => by simp [claimsQ] at h
  | pe :: rest, h => by
    rw [claimsQ, List.any_cons] at h
    rcases Bool.or_eq_true_iff.mp h with h1 | h2
    · rw [Bool.and_eq_true, List.any_eq_true] at h1
      obtain ⟨e, he, hbk⟩ := h1.2
      rw [decide_eq_true_eq] at hbk
      refine List.mem_append.mpr (Or.inl ?_)
      refine List.mem_filterMap.mpr ⟨e, he, ?_⟩
      rw [hbk]
      rfl
    · exact List.mem_append.mpr (Or.inr (claimsQ_mem_qIdsAux h2))

theorem one_lt_length_iff_nodup :
    ∀ {l : List Nat}, l.Nodup → (1 < l.length ↔ ∃ a b, a ∈ l ∧ b ∈ l ∧ a ≠ b)
  | [], _ => by simp
  | [x], _ => by
    constructor
    · intro h
      simp at h
    · rintro ⟨a, b, ha, hb, hab⟩
      rw [List.mem_singleton] at ha hb
      exact absurd (ha.trans hb.symm) hab
  | x :: y :: rest, hnd => by
    constructor
    · intro _
      refine ⟨x, y, List.mem_cons_self _ _,
        List.mem_cons_of_mem _ (List.mem_cons_self _ _), ?_⟩
      intro hc
      rw [List.nodup_cons] at hnd
      exact hnd.1 (hc ▸ List.mem_cons_self y rest)
    · intro _
      simp [List.length_cons]

/-- C9 (amended): the analysis flags `id` exactly when `id`'s question half
is claimed on more than one distinct page — one record id with `:Q` entries
on two different pages — not when one page is claimed by two distinct ids. -/
theorem c9_duplicate_iff_two_pages (pu : List (Nat × List String)) (i : String) :
    i ∈ duplicatesOf pu ↔
      ∃ p1 p2, p1 ≠ p2 ∧ claimsQ pu i p1 = true ∧ claimsQ pu i p2 = true := by
  constructor
  · intro h
    rw [duplicatesOf, List.mem_filter] at h
    have hdup := h.2
    rw [isDuplicate, decide_eq_true_eq] at hdup
    obtain ⟨a, b, ha, hb, hab⟩ :=
      (one_lt_length_iff_nodup (List.nodup_dedup _)).mp hdup
    exact ⟨a, b, hab, mem_qPagesList.mp ha, mem_qPagesList.mp hb⟩
  · rintro ⟨p1, p2, hne, h1, h2⟩
    rw [duplicatesOf, List.mem_filter]
    refine ⟨List.mem_dedup.mpr (claimsQ_mem_qIdsAux h1), ?_⟩
    rw [isDuplicate, decide_eq_true_eq]
    exact (one_lt_length_iff_nodup (List.nodup_dedup _)).mpr
      ⟨p1, p2, mem_qPagesList.mpr h1, mem_qPagesList.mpr h2, hne⟩

/-- A summary page claimed under `:Q` by two distinct ids. -/
def c9pu : List (Nat × List String) := [(1, ["T13-Q1-C0:Q", "T13-Q2-C0:Q"])]

/-- C9 counterexample: page 1 is claimed under `:Q` by two distinct record
ids, yet `analyze_duplicates` flags nothing — it tests pages-per-id, not
ids-per-page as the claim states. -/
theorem c9_shared_page_counterexample :
    duplicatesOf c9pu = []
    ∧ claimsQ c9pu "T13-Q1-C0" 1 = true
    ∧ claimsQ c9pu "T13-Q2-C0" 1 = true
    ∧ ("T13-Q1-C0" : String) ≠ "T13-Q2-C0" := by decide

end ChemClicker
